import Mathlib

/-!
Verification development for the Forge canvas widget
(src/modules_forge/forge_canvas/canvas.js).

The JavaScript source is shallowly embedded:

* JS doubles are modelled as exact rationals where no IEEE special value
  can arise on the paths under study, and as the extended type `JNum`
  (rational / +Infinity / -Infinity / NaN) where division by zero
  matters (the fit computation);
* geometry that goes through Math.sqrt and Math.pow is modelled over ℝ;
* the drawing-canvas pixel buffer is modelled freely: each canvas-2d
  operation performed by the source is recorded as a constructor of the
  `Surface` inductive, so two different sequences of operations give
  different surface values and "the pixels changed" is observable;
* DOM-only effects (element styles, cursors, button opacity) are outside
  the model; everything the claims mention (view transform, stroke and
  erase geometry, undo history, binding channel, upload guard) is
  embedded directly from the source.
-/

set_option maxRecDepth 4000

namespace ForgeSpec

/-- IEEE-style JavaScript number for the fit computation: a finite value
(exact rational), +Infinity, -Infinity or NaN. -/
inductive JNum where
  | num (q : ℚ)
  | inf
  | ninf
  | nan
deriving DecidableEq, Repr

namespace JNum

/-- JS subtraction. -/
def sub : JNum → JNum → JNum
  | num a, num b => num (a - b)
  | nan, _ => nan
  | _, nan => nan
  | inf, inf => nan
  | inf, _ => inf
  | _, inf => ninf
  | ninf, ninf => nan
  | ninf, _ => ninf
  | _, ninf => inf

/-- JS division: a finite value divided by 0 gives a signed infinity
(0/0 gives NaN), a finite value divided by ±Infinity gives 0, and
∞/∞ combinations give NaN. -/
def div : JNum → JNum → JNum
  | nan, _ => nan
  | _, nan => nan
  | num a, num b =>
      if b = 0 then (if a = 0 then nan else if 0 < a then inf else ninf)
      else num (a / b)
  | num _, inf => num 0
  | num _, ninf => num 0
  | inf, num b => if 0 ≤ b then inf else ninf
  | ninf, num b => if 0 ≤ b then ninf else inf
  | inf, inf => nan
  | inf, ninf => nan
  | ninf, inf => nan
  | ninf, ninf => nan

/-- JS multiplication: 0 times an infinity gives NaN. -/
def mul : JNum → JNum → JNum
  | nan, _ => nan
  | _, nan => nan
  | num a, num b => num (a * b)
  | num a, inf => if a = 0 then nan else if 0 < a then inf else ninf
  | inf, num a => if a = 0 then nan else if 0 < a then inf else ninf
  | num a, ninf => if a = 0 then nan else if 0 < a then ninf else inf
  | ninf, num a => if a = 0 then nan else if 0 < a then ninf else inf
  | inf, inf => inf
  | ninf, ninf => inf
  | inf, ninf => ninf
  | ninf, inf => ninf

/-- JS Math.min: NaN-propagating minimum. -/
def jmin : JNum → JNum → JNum
  | nan, _ => nan
  | _, nan => nan
  | inf, b => b
  | a, inf => a
  | ninf, _ => ninf
  | _, ninf => ninf
  | num a, num b => num (min a b)

end JNum

/-- The view-transform fields of a ForgeCanvas instance:
this.imgX, this.imgY, this.imgScale. -/
structure FitState where
  imgX : JNum
  imgY : JNum
  imgScale : JNum
deriving DecidableEq, Repr

/-- ForgeCanvas.adjustInitialPositionAndScale (canvas.js 576-590).
clientWidth/clientHeight are imageContainer.clientWidth/clientHeight,
originalWidth/originalHeight are this.originalWidth/this.originalHeight.
The source overwrites all three view fields unconditionally; the prior
state `s` is taken as an argument only so that theorems can compare the
result against it. -/
def adjustInitialPositionAndScale (clientWidth clientHeight originalWidth originalHeight : ℚ)
    (_s : FitState) : FitState :=
  let containerWidth := JNum.sub (JNum.num clientWidth) (JNum.num 20)
  let containerHeight := JNum.sub (JNum.num clientHeight) (JNum.num 20)
  let scaleX := JNum.div containerWidth (JNum.num originalWidth)
  let scaleY := JNum.div containerHeight (JNum.num originalHeight)
  let imgScale := JNum.jmin scaleX scaleY
  let scaledWidth := JNum.mul (JNum.num originalWidth) imgScale
  let scaledHeight := JNum.mul (JNum.num originalHeight) imgScale
  { imgX := JNum.div (JNum.sub (JNum.num clientWidth) scaledWidth) (JNum.num 2)
    imgY := JNum.div (JNum.sub (JNum.num clientHeight) scaledHeight) (JNum.num 2)
    imgScale := imgScale }

/-- Pan/zoom view state over exact rationals, for the wheel-zoom path
(no IEEE special value can arise there under positive prior scale). -/
structure ViewQ where
  imgX : ℚ
  imgY : ℚ
  imgScale : ℚ
deriving DecidableEq, Repr

/-- The imageContainer wheel handler, non-ctrl branch with an image
loaded (canvas.js 363-380): zoomFactor = deltaY * -0.001, the scale is
clamped below by 0.1 via Math.max, and the offsets are updated with the
cursor-anchoring formula. -/
def wheelZoom (mouseX mouseY deltaY : ℚ) (s : ViewQ) : ViewQ :=
  let previousScale := s.imgScale
  let zoomFactor := deltaY * (-1 / 1000)
  let newScale := max (1 / 10) (s.imgScale + zoomFactor)
  let scaleRatio := newScale / previousScale
  { imgX := mouseX - (mouseX - s.imgX) * scaleRatio
    imgY := mouseY - (mouseY - s.imgY) * scaleRatio
    imgScale := newScale }

/-- The pointer-to-image coordinate mapping the source applies to every
pointer event ((event.clientX - rect.left) / this.imgScale, canvas.js
242-243 and 635-636), where rect.left/rect.top equal imgX/imgY in
container coordinates (drawImage, canvas.js 564-569). -/
def screenToImage (px py : ℚ) (s : ViewQ) : ℚ × ℚ :=
  ((px - s.imgX) / s.imgScale, (py - s.imgY) / s.imgScale)

/-- The fields of GradioTextAreaBind: the textarea's current value
(this.target.value), the last value recorded by the bind
(this.previousValue) and the reentrancy flag (this.syncLock). -/
structure BindState where
  targetValue : String
  previousValue : String
  syncLock : Bool
deriving DecidableEq, Repr

/-- GradioTextAreaBind.setValue (canvas.js 20-32): returns the updated
bind state together with the list of input events dispatched to the
external field (each carrying the written value).  A call made while
syncLock is set returns immediately: nothing is written or queued. -/
def setValue (s : BindState) (newValue : String) : BindState × List String :=
  if s.syncLock then (s, [])
  else ({ targetValue := newValue, previousValue := newValue, syncLock := false }, [newValue])

/-- GradioTextAreaBind.listen (canvas.js 34-36) has an empty body: the
supplied callback is discarded and no state is touched. -/
def listen (s : BindState) (_callback : String → Unit) : BindState := s

/-- Outcome of one firing of the MutationObserver callback installed by
the GradioTextAreaBind constructor: it either returns normally having
invoked a load callback on a value (ok (some v)), returns without
invoking anything (ok none), or throws.  In the source the observer body
reads the identifier `callback`, which is bound nowhere in the file
(the constructor has no callback parameter and no global of that name
exists), so reaching the invocation site throws a ReferenceError. -/
inductive ObserverResult where
  | ok (invoked : Option String)
  | threwReferenceError
deriving DecidableEq, Repr

/-- The MutationObserver callback body (canvas.js 7-16): if the target
value differs from previousValue, record it; then, unless syncLock is
set, set syncLock and evaluate `callback(this.target.value)` — which
throws a ReferenceError because `callback` is unbound, leaving syncLock
set (the line resetting it never runs). -/
def observerFire (s : BindState) : BindState × ObserverResult :=
  if s.targetValue = s.previousValue then (s, ObserverResult.ok none)
  else
    if s.syncLock then ({ s with previousValue := s.targetValue }, ObserverResult.ok none)
    else ({ s with previousValue := s.targetValue, syncLock := true },
      ObserverResult.threwReferenceError)

/-- A host-side (external) edit of the bound textarea's value. -/
def externalEdit (s : BindState) (v : String) : BindState :=
  { s with targetValue := v }

/-- this.history, this.historyIndex and the drawing-canvas pixel buffer,
abstracted over the snapshot type.  historyIndex is an Int because the
constructor initialises it to -1 (canvas.js 81). -/
structure HistState (α : Type) where
  history : List α
  historyIndex : Int
  surface : α
deriving DecidableEq, Repr

/-- ForgeCanvas.saveState (canvas.js 750-760) restricted to its history
effect: this.history = this.history.slice(0, historyIndex + 1), push the
current pixel buffer, increment the index.  (historyIndex ≥ -1 on every
reachable state, so slice(0, historyIndex + 1) is an ordinary take.)
The DOM button update and the foreground publish it also performs are
modelled at the controller level (controllerSaveState below). -/
def saveState {α : Type} (s : HistState α) : HistState α :=
  { history := s.history.take (s.historyIndex + 1).toNat ++ [s.surface]
    historyIndex := s.historyIndex + 1
    surface := s.surface }

/-- ForgeCanvas.restoreState (canvas.js 762-769): write
history[historyIndex] back onto the canvas.  On every reachable state
the index is in range, so the getD default is never used. -/
def restoreState {α : Type} (s : HistState α) : HistState α :=
  { s with surface := s.history.getD s.historyIndex.toNat s.surface }

/-- ForgeCanvas.undo (canvas.js 771-777). -/
def undo {α : Type} (s : HistState α) : HistState α :=
  if 0 < s.historyIndex then restoreState { s with historyIndex := s.historyIndex - 1 }
  else s

/-- ForgeCanvas.redo (canvas.js 779-785). -/
def redo {α : Type} (s : HistState α) : HistState α :=
  if s.historyIndex < (s.history.length : Int) - 1 then
    restoreState { s with historyIndex := s.historyIndex + 1 }
  else s

/-- One user-level history operation: complete a gesture that left the
canvas holding buf and snapshot it, or undo, or redo. -/
inductive HistOp (α : Type) where
  | save (buf : α)
  | undo
  | redo

/-- Apply one history operation. -/
def applyOp {α : Type} (s : HistState α) : HistOp α → HistState α
  | HistOp.save buf => saveState { s with surface := buf }
  | HistOp.undo => undo s
  | HistOp.redo => redo s

/-- Apply a sequence of history operations. -/
def applyOps {α : Type} (s : HistState α) (ops : List (HistOp α)) : HistState α :=
  ops.foldl applyOp s

/-- The constructor's history state: empty history, index -1
(canvas.js 80-81), with the given initial canvas content. -/
def histInit {α : Type} (a : α) : HistState α := ⟨[], -1, a⟩

/-- n completed gestures (with the buffers they leave on the canvas),
each followed by its snapshot. -/
def pushAll {α : Type} (s : HistState α) (bufs : List α) : HistState α :=
  bufs.foldl (fun t b => saveState { t with surface := b }) s

/-- The dab centers stamped by one call of ForgeCanvas.handleErase
moving from last (this.lastErasePoint) to cur with dab diameter
eraserSize (canvas.js 694-723): a single dab at the new point when the
travelled distance is below a quarter diameter, otherwise
ceil(distance / (eraserSize/4)) dabs linearly interpolated along the
segment at parameters i/steps, i = 0 .. steps-1. -/
noncomputable def handleEraseDabs (last cur : ℝ × ℝ) (eraserSize : ℝ) : List (ℝ × ℝ) :=
  let dx := cur.1 - last.1
  let dy := cur.2 - last.2
  let distance := Real.sqrt (dx * dx + dy * dy)
  if distance < eraserSize / 4 then [cur]
  else
    let steps : ℕ := (Int.ceil (distance / (eraserSize / 4))).toNat
    (List.range steps).map fun (i : ℕ) =>
      (last.1 + dx * ((i : ℝ) / (steps : ℝ)), last.2 + dy * ((i : ℝ) / (steps : ℝ)))

/-- Euclidean distance between two points, as computed by the source
(Math.sqrt(dx*dx + dy*dy)). -/
noncomputable def pointDist (p q : ℝ × ℝ) : ℝ :=
  Real.sqrt ((q.1 - p.1) * (q.1 - p.1) + (q.2 - p.2) * (q.2 - p.2))

/-- The drawing tool (this.currentTool). -/
inductive Tool where
  | brush
  | eraser
deriving DecidableEq, Repr

/-- Free model of the drawing-canvas pixel buffer: `blank w h` is a
freshly created or resized canvas (resizing a canvas clears it);
`strokePath b pts color lw alpha softness mask` is the result of
putImageData(b, 0, 0) followed by stroking the polyline pts with the
given parameters (the body of handleDraw); `eraseDabs s dabs size` is s
with destination-out circular dabs of diameter size stamped at the given
centers (the body of handleErase).  Distinct operation sequences give
distinct values, so a changed buffer is observable. -/
inductive Surface where
  | blank (w h : ℚ)
  | strokePath (background : Surface) (pts : List (ℝ × ℝ)) (color : String)
      (lineWidth alpha softness : ℝ) (mask : Bool)
  | eraseDabs (base : Surface) (dabs : List (ℝ × ℝ)) (size : ℝ)

/-- The per-gesture state of the drawing state machine, from the
ForgeCanvas fields it reads and writes. -/
structure GestureState where
  img : Option String
  imgScale : ℝ
  noScribbles : Bool
  mask : Bool
  currentTool : Tool
  drawing : Bool
  eraseChanged : Bool
  lastErasePoint : Option (ℝ × ℝ)
  tempDrawPoints : List (ℝ × ℝ)
  tempDrawBackground : Surface
  scribbleColor : String
  scribbleWidth : ℝ
  scribbleAlpha : ℝ
  scribbleSoftness : ℝ
  hist : HistState Surface

/-- ForgeCanvas.handleDraw (canvas.js 632-685): append the event point
(in image coordinates) to tempDrawPoints, restore the pre-stroke
background with putImageData and stroke the whole accumulated path with
lineWidth (scribbleWidth / imgScale) * 20.  cx/cy are the event
coordinates relative to the canvas (clientX - rect.left,
clientY - rect.top). -/
noncomputable def handleDraw (s : GestureState) (cx cy : ℝ) : GestureState :=
  let x := cx / s.imgScale
  let y := cy / s.imgScale
  let pts := s.tempDrawPoints ++ [(x, y)]
  let stroked := Surface.strokePath s.tempDrawBackground pts s.scribbleColor
    (s.scribbleWidth / s.imgScale * 20) s.scribbleAlpha s.scribbleSoftness s.mask
  { s with
    tempDrawPoints := pts
    hist := { s.hist with surface := stroked } }

/-- ForgeCanvas.handleErase (canvas.js 687-727): stamp the interpolated
dab sequence onto the current surface, move lastErasePoint to the event
point and set this.eraseChanged. -/
noncomputable def handleErase (s : GestureState) (cx cy : ℝ) : GestureState :=
  let x := cx / s.imgScale
  let y := cy / s.imgScale
  let eraserSize := s.scribbleWidth / s.imgScale * 20
  let last := s.lastErasePoint.getD (x, y)
  let dabs := handleEraseDabs last (x, y) eraserSize
  { s with
    hist := { s.hist with surface := Surface.eraseDabs s.hist.surface dabs eraserSize }
    lastErasePoint := some (x, y)
    eraseChanged := true }

/-- Pointer events on the drawing canvas; coordinates are relative to
the canvas rectangle. -/
inductive GEvent where
  | down (cx cy : ℝ) (button : ℕ)
  | move (cx cy : ℝ)
  | up
  | leave

/-- The drawingCanvas pointerdown / pointermove / pointerup /
pointerleave handlers (canvas.js 233-308), restricted to the state the
claims mention.  pointerdown seeds tempDrawPoints with the event point,
snapshots the pre-stroke background and immediately runs the tool
handler on the same event.  pointerup and pointerleave end the gesture
and call saveState only when this.eraseChanged is set — which only
handleErase ever sets. -/
noncomputable def gestureStep (s : GestureState) : GEvent → GestureState
  | GEvent.down cx cy button =>
      if s.img = none ∨ button ≠ 0 ∨ s.noScribbles then s
      else
        let s1 : GestureState := { s with
          drawing := true
          tempDrawPoints := [(cx / s.imgScale, cy / s.imgScale)]
          tempDrawBackground := s.hist.surface }
        if s1.currentTool = Tool.eraser then handleErase s1 cx cy else handleDraw s1 cx cy
  | GEvent.move cx cy =>
      if s.drawing then
        if s.currentTool = Tool.eraser then handleErase s cx cy else handleDraw s cx cy
      else s
  | GEvent.up =>
      if s.drawing then
        let s1 : GestureState := { s with drawing := false, lastErasePoint := none }
        if s1.eraseChanged then { s1 with hist := saveState s1.hist, eraseChanged := false }
        else s1
      else s
  | GEvent.leave =>
      if s.drawing then
        let s1 : GestureState := { s with drawing := false, lastErasePoint := none }
        if s1.eraseChanged then { s1 with hist := saveState s1.hist, eraseChanged := false }
        else s1
      else s

/-- Run a sequence of pointer events through the gesture handlers. -/
noncomputable def gestureRun (s : GestureState) (evs : List GEvent) : GestureState :=
  evs.foldl gestureStep s

/-- A canvas ready for a brush gesture: image loaded, scale 1, brush
tool, opaque hard brush, with one prior snapshot in the history. -/
noncomputable def brushGestureStart : GestureState :=
  { img := some "img"
    imgScale := 1
    noScribbles := false
    mask := false
    currentTool := Tool.brush
    drawing := false
    eraseChanged := false
    lastErasePoint := none
    tempDrawPoints := []
    tempDrawBackground := Surface.blank 8 8
    scribbleColor := "#000000"
    scribbleWidth := 4
    scribbleAlpha := 100
    scribbleSoftness := 0
    hist := ⟨[Surface.blank 8 8], 0, Surface.blank 8 8⟩ }

/-- steps = Math.round(5 + this.scribbleSoftness / 5) (canvas.js 676).
Math.round rounds half up, as Mathlib's round does. -/
noncomputable def softSteps (softness : ℝ) : ℤ := round (5 + softness / 5)

/-- minLineWidth = lineWidth * (1 - softness / 150) (canvas.js 674). -/
noncomputable def softMinLineWidth (lineWidth softness : ℝ) : ℝ :=
  lineWidth * (1 - softness / 150)

/-- maxLineWidth = lineWidth * (1 + softness / 150) (canvas.js 675). -/
noncomputable def softMaxLineWidth (lineWidth softness : ℝ) : ℝ :=
  lineWidth * (1 + softness / 150)

/-- lineWidthIncrement = (maxLineWidth - minLineWidth) / (steps - 1)
(canvas.js 677). -/
noncomputable def softLineWidthIncrement (lineWidth softness : ℝ) : ℝ :=
  (softMaxLineWidth lineWidth softness - softMinLineWidth lineWidth softness) /
    ((softSteps softness : ℝ) - 1)

/-- The line width used on pass i: minLineWidth + lineWidthIncrement * i
(canvas.js 682). -/
noncomputable def softPassLineWidth (lineWidth softness : ℝ) (i : ℕ) : ℝ :=
  softMinLineWidth lineWidth softness + softLineWidthIncrement lineWidth softness * i

/-- globalAlpha = 1 - (1 - min(alpha/100, 0.95)) ^ (1/steps)
(canvas.js 679), identical on every pass. -/
noncomputable def softPassAlpha (alpha softness : ℝ) : ℝ :=
  1 - (1 - min (alpha / 100) 0.95) ^ ((1 : ℝ) / (softSteps softness : ℝ))

/-- Visible coverage of a fully overlapping region after n source-over
passes of identical opacity a: 1 - (1 - a)^n. -/
noncomputable def compositedCoverage (a : ℝ) (n : ℕ) : ℝ := 1 - (1 - a) ^ n

/-- The width sequence of the soft-brush passes (canvas.js 681-684). -/
noncomputable def softPassWidths (lineWidth softness : ℝ) : List ℝ :=
  (List.range (softSteps softness).toNat).map (softPassLineWidth lineWidth softness)

/-- JS String.prototype.startsWith: pre is a prefix of s.  (Lean's own
String.startsWith is the same test phrased through substrings, but its
byte-level loop is defined by well-founded recursion and does not reduce
in the kernel; the character-list form evaluates.) -/
def jsStartsWith (s pre : String) : Bool := pre.data.isPrefixOf s.data

/-- The module-level gradio_config object, as far as uploadBase64 reads
it. -/
structure GradioConfig where
  version : String
deriving DecidableEq, Repr

/-- The ForgeCanvas fields read or written by uploadBase64 and its
callees. -/
structure CanvasState where
  img : Option String
  originalWidth : ℚ
  originalHeight : ℚ
  canvasW : ℚ
  canvasH : ℚ
  view : FitState
  hist : HistState Surface
  backgroundBind : BindState
  foregroundBind : BindState

/-- ForgeCanvas.onImageUpload (canvas.js 798-814): publish the
background — an empty string when no image is loaded, otherwise the
re-encoded image (encodeBg models drawing the image element onto
tempCanvas and calling toDataURL). -/
def onImageUpload (encodeBg : String → String) (s : CanvasState) : CanvasState :=
  match s.img with
  | none => { s with backgroundBind := (setValue s.backgroundBind "").1 }
  | some data => { s with backgroundBind := (setValue s.backgroundBind (encodeBg data)).1 }

/-- ForgeCanvas.onDrawingCanvasUpload (canvas.js 816-825): publish the
foreground — an empty string when no image is loaded, otherwise the
serialized canvas (encodeFg models drawingCanvas.toDataURL). -/
def onDrawingCanvasUpload (encodeFg : Surface → String) (s : CanvasState) : CanvasState :=
  match s.img with
  | none => { s with foregroundBind := (setValue s.foregroundBind "").1 }
  | some _ => { s with foregroundBind := (setValue s.foregroundBind (encodeFg s.hist.surface)).1 }

/-- ForgeCanvas.saveState at the controller level (canvas.js 750-760):
the history push followed by the foreground publish. -/
def controllerSaveState (encodeFg : Surface → String) (s : CanvasState) : CanvasState :=
  onDrawingCanvasUpload encodeFg { s with hist := saveState s.hist }

/-- ForgeCanvas.uploadBase64 (canvas.js 488-525).  The two guard lines
return when this.gradioConfig is null (the second check) or when its
version does not start with '4' (the first check).  decode models
browser image decoding of the payload (none: not a valid image, so
img.onload never fires and nothing runs); clientW/clientH are the
container's client dimensions used by adjustInitialPositionAndScale.
Resizing the drawing canvas to the decoded dimensions clears its
pixels.  DOM-only effects (file-input reset, upload-hint style) are
omitted. -/
def uploadBase64 (decode : String → Option (ℚ × ℚ)) (encodeBg : String → String)
    (encodeFg : Surface → String) (clientW clientH : ℚ)
    (gradioConfig : Option GradioConfig) (base64Data : String) (s : CanvasState) : CanvasState :=
  match gradioConfig with
  | none => s
  | some cfg =>
    if ¬ jsStartsWith cfg.version "4" then s
    else if base64Data ≠ "" then
      match decode base64Data with
      | none => s
      | some wh =>
        let s1 : CanvasState :=
          { s with img := some base64Data, originalWidth := wh.1, originalHeight := wh.2 }
        let s2 : CanvasState :=
          if s1.canvasW ≠ wh.1 ∨ s1.canvasH ≠ wh.2 then
            { s1 with
              canvasW := wh.1
              canvasH := wh.2
              hist := { s1.hist with surface := Surface.blank wh.1 wh.2 } }
          else s1
        let s3 : CanvasState :=
          { s2 with view := adjustInitialPositionAndScale clientW clientH wh.1 wh.2 s2.view }
        controllerSaveState encodeFg (onImageUpload encodeBg s3)
    else
      let s1 : CanvasState :=
        { s with
          img := none
          canvasW := 1
          canvasH := 1
          hist := { s.hist with surface := Surface.blank 1 1 } }
      let s2 : CanvasState :=
        { s1 with view :=
            adjustInitialPositionAndScale clientW clientH s1.originalWidth s1.originalHeight s1.view }
      controllerSaveState encodeFg (onImageUpload encodeBg s2)

/-- Invariant of history states reached after at least one snapshot: the
index is in range and the surface equals the indexed snapshot
(for any getD default). -/
def GoodHist {α : Type} (s : HistState α) : Prop :=
  0 ≤ s.historyIndex ∧ s.historyIndex < (s.history.length : ℤ) ∧
  ∀ d : α, s.history.getD s.historyIndex.toNat d = s.surface

/-- States reachable from the initial (empty, index -1) history are
either still initial or satisfy the invariant. -/
def InitOrGood {α : Type} (s : HistState α) : Prop :=
  (s.history = [] ∧ s.historyIndex = -1) ∨ GoodHist s

/-! ### Theorems -/

/-- Concrete evaluation of the fit: a 200×100 image in a 400×400
container. -/
theorem adjust_concrete (s : FitState) :
    adjustInitialPositionAndScale 400 400 200 100 s
      = ⟨JNum.num 10, JNum.num 105, JNum.num (19 / 10)⟩ := by
  norm_num [adjustInitialPositionAndScale, JNum.sub, JNum.div, JNum.mul, JNum.jmin,
    min_def, FitState.mk.injEq]

/-- Concrete evaluation of the fit with image width 0 and height 100 in
a 400×400 container. -/
theorem adjust_degenerate_concrete (s : FitState) :
    adjustInitialPositionAndScale 400 400 0 100 s
      = ⟨JNum.num 200, JNum.num 10, JNum.num (19 / 5)⟩ := by
  norm_num [adjustInitialPositionAndScale, JNum.sub, JNum.div, JNum.mul, JNum.jmin,
    FitState.mk.injEq]

/-- C1 — the code at the claim's failing input.  A complete brush
gesture (pointer-down at (1,1), move to (2,2), pointer-up) on a loaded
image with an opaque brush changes the overlay pixels (the final surface
is the stroked path over the pre-stroke background, not the original
buffer) yet takes no history snapshot: pointer-up only calls saveState
when this.eraseChanged is set, and only handleErase ever sets it, so the
history list and index are exactly as before the gesture.  (For an erase
gesture at the same points, the same pointer-up does snapshot: the
history grows by one.) -/
theorem C1_brush_stroke_no_snapshot :
    (gestureRun brushGestureStart [GEvent.down 1 1 0, GEvent.move 2 2, GEvent.up]).hist.history
      = brushGestureStart.hist.history ∧
    (gestureRun brushGestureStart [GEvent.down 1 1 0, GEvent.move 2 2, GEvent.up]).hist.historyIndex
      = brushGestureStart.hist.historyIndex ∧
    (gestureRun brushGestureStart [GEvent.down 1 1 0, GEvent.move 2 2, GEvent.up]).hist.surface
      ≠ brushGestureStart.hist.surface ∧
    (gestureRun { brushGestureStart with currentTool := Tool.eraser }
        [GEvent.down 1 1 0, GEvent.move 2 2, GEvent.up]).hist.history.length
      = brushGestureStart.hist.history.length + 1 := by
  refine ⟨?_, ?_, ?_, ?_⟩ <;>
    simp [gestureRun, gestureStep, handleDraw, handleErase, brushGestureStart, saveState]

/-- C2 — counterexample.  The spec claims margin 20 per side
(scale = min((W-2·20)/w, (H-2·20)/h)), so that a 200×100 image in a
400×400 container fits at scale 1.8 with offset (20, 110).  The source
subtracts 20 in total (clientWidth - 20, canvas.js 578-579): the same
input yields scale 1.9 and offset (10, 105). -/
theorem C2_fit_counterexample :
    ¬ ((adjustInitialPositionAndScale 400 400 200 100
          ⟨JNum.num 0, JNum.num 0, JNum.num 1⟩).imgScale = JNum.num (18 / 10) ∧
       (adjustInitialPositionAndScale 400 400 200 100
          ⟨JNum.num 0, JNum.num 0, JNum.num 1⟩).imgX = JNum.num 20 ∧
       (adjustInitialPositionAndScale 400 400 200 100
          ⟨JNum.num 0, JNum.num 0, JNum.num 1⟩).imgY = JNum.num 110) := by
  norm_num [adjust_concrete]

/-- C2 — amended.  For every fit/center operation with positive image
dimensions the scale is min((containerW-20)/imageW, (containerH-20)/imageH)
(20 subtracted in total, i.e. margin 10 per side) and the image is
centered: offsetX = (containerW - imageW·scale)/2, likewise for Y; in
particular a 200×100 image in a 400×400 container yields scale 1.9 and
offset (10, 105). -/
theorem C2_fit_formula (W H w h : ℚ) (hw : 0 < w) (hh : 0 < h) (s : FitState) :
    (adjustInitialPositionAndScale W H w h s).imgScale
      = JNum.num (min ((W - 20) / w) ((H - 20) / h)) ∧
    (adjustInitialPositionAndScale W H w h s).imgX
      = JNum.num ((W - w * min ((W - 20) / w) ((H - 20) / h)) / 2) ∧
    (adjustInitialPositionAndScale W H w h s).imgY
      = JNum.num ((H - h * min ((W - 20) / w) ((H - 20) / h)) / 2) ∧
    (adjustInitialPositionAndScale 400 400 200 100 s).imgScale = JNum.num (19 / 10) ∧
    (adjustInitialPositionAndScale 400 400 200 100 s).imgX = JNum.num 10 ∧
    (adjustInitialPositionAndScale 400 400 200 100 s).imgY = JNum.num 105 := by
  have h2 : (2 : ℚ) ≠ 0 := two_ne_zero
  refine ⟨?_, ?_, ?_, by rw [adjust_concrete], by rw [adjust_concrete], by rw [adjust_concrete]⟩ <;>
    simp [adjustInitialPositionAndScale, JNum.sub, JNum.div, JNum.mul, JNum.jmin,
      hw.ne', hh.ne', h2]

/-- C2 — witness for the amended theorem at container 400×400 and image
200×100. -/
theorem C2_fit_formula_witness :
    (0 : ℚ) < 200 ∧ (0 : ℚ) < 100 ∧
    (adjustInitialPositionAndScale 400 400 200 100
        ⟨JNum.num 0, JNum.num 0, JNum.num 1⟩).imgScale = JNum.num (19 / 10) :=
  ⟨by norm_num, by norm_num,
    (C2_fit_formula 400 400 200 100 (by norm_num) (by norm_num)
      ⟨JNum.num 0, JNum.num 0, JNum.num 1⟩).2.2.2.1⟩

/-- C9 — counterexample.  The claim says a zero image dimension makes
the fit a no-op that retains the previous ViewState.  The source has no
guard: with originalWidth = 0, originalHeight = 100 in a 400×400
container starting from view (5, 7, scale 1), the view is overwritten
(scale becomes 3.8, offset (200, 105)). -/
theorem C9_degenerate_counterexample :
    adjustInitialPositionAndScale 400 400 0 100 ⟨JNum.num 5, JNum.num 7, JNum.num 1⟩
      ≠ ⟨JNum.num 5, JNum.num 7, JNum.num 1⟩ := by
  norm_num [adjust_degenerate_concrete, FitState.mk.injEq]

/-- Concrete evaluation of the fit with container width 0 and a 100×100
image: no division by zero occurs, the width-axis candidate is the
finite negative -20/100, and the view is overwritten with it. -/
theorem adjust_zero_container_concrete (s : FitState) :
    adjustInitialPositionAndScale 0 400 100 100 s
      = ⟨JNum.num 10, JNum.num 210, JNum.num (-1 / 5)⟩ := by
  norm_num [adjustInitialPositionAndScale, JNum.sub, JNum.div, JNum.mul, JNum.jmin,
    min_def, FitState.mk.injEq]

/-- C9 — amended.  For degenerate fit inputs the computation is not
skipped and no division-by-zero exception occurs (JS division is
total); the previous ViewState is overwritten, not retained.  With both
container dimensions above the 20px subtraction (clientWidth > 20 and
clientHeight > 20): a zero image width (height h > 0) makes the
width-axis candidate +Infinity, so Math.min selects the height-axis
scale (H-20)/h and offsetX becomes W/2 (the scaled width is 0);
symmetrically, a zero image height (width w > 0) gives scale (W-20)/w
and offsetY = H/2; with both image dimensions zero the scale becomes
+Infinity and both offsets NaN.  With a container dimension of zero and
positive image dimensions no division by zero occurs at all: the
zero-container axis contributes the finite negative candidate
-20/imageDim, the scale is still the min of the two candidates, and the
ViewState is likewise overwritten (shown concretely for a 0×400
container). -/
theorem C9_degenerate_fit (W H w h : ℚ) (hW : 20 < W) (hH : 20 < H)
    (hw : 0 < w) (hh : 0 < h) (s : FitState) :
    (adjustInitialPositionAndScale W H 0 h s).imgScale = JNum.num ((H - 20) / h) ∧
    (adjustInitialPositionAndScale W H 0 h s).imgX = JNum.num (W / 2) ∧
    (adjustInitialPositionAndScale W H 0 h s).imgY
      = JNum.num ((H - h * ((H - 20) / h)) / 2) ∧
    (adjustInitialPositionAndScale W H w 0 s).imgScale = JNum.num ((W - 20) / w) ∧
    (adjustInitialPositionAndScale W H w 0 s).imgY = JNum.num (H / 2) ∧
    (adjustInitialPositionAndScale W H w 0 s).imgX
      = JNum.num ((W - w * ((W - 20) / w)) / 2) ∧
    (adjustInitialPositionAndScale W H 0 0 s).imgScale = JNum.inf ∧
    (adjustInitialPositionAndScale W H 0 0 s).imgX = JNum.nan ∧
    (adjustInitialPositionAndScale W H 0 0 s).imgY = JNum.nan ∧
    (adjustInitialPositionAndScale 0 H w h s).imgScale
      = JNum.num (min (-20 / w) ((H - 20) / h)) ∧
    (adjustInitialPositionAndScale W 0 w h s).imgScale
      = JNum.num (min ((W - 20) / w) (-20 / h)) ∧
    adjustInitialPositionAndScale 0 400 100 100 ⟨JNum.num 5, JNum.num 7, JNum.num 1⟩
      ≠ ⟨JNum.num 5, JNum.num 7, JNum.num 1⟩ := by
  have h1 : (W - 20 : ℚ) ≠ 0 := by linarith
  have h2 : (0 : ℚ) < W - 20 := by linarith
  have h3 : (H - 20 : ℚ) ≠ 0 := by linarith
  have h4 : (0 : ℚ) < H - 20 := by linarith
  have h5 : (2 : ℚ) ≠ 0 := two_ne_zero
  refine ⟨?_, ?_, ?_, ?_, ?_, ?_, ?_, ?_, ?_, ?_, ?_,
    by norm_num [adjust_zero_container_concrete, FitState.mk.injEq]⟩ <;>
    simp [adjustInitialPositionAndScale, JNum.sub, JNum.div, JNum.mul, JNum.jmin,
      h1, h2, h3, h4, h5, hw.ne', hh.ne']

/-- C9 — witness for the amended theorem: a 400×400 container with a
100-pixel image dimension on each degenerate axis. -/
theorem C9_degenerate_fit_witness :
    (20 : ℚ) < 400 ∧ (0 : ℚ) < 100 ∧
    (adjustInitialPositionAndScale 400 400 0 100
        ⟨JNum.num 5, JNum.num 7, JNum.num 1⟩).imgScale = JNum.num ((400 - 20) / 100) ∧
    (adjustInitialPositionAndScale 400 400 100 0
        ⟨JNum.num 5, JNum.num 7, JNum.num 1⟩).imgScale = JNum.num ((400 - 20) / 100) :=
  ⟨by norm_num, by norm_num,
    (C9_degenerate_fit 400 400 100 100 (by norm_num) (by norm_num) (by norm_num) (by norm_num)
      ⟨JNum.num 5, JNum.num 7, JNum.num 1⟩).1,
    (C9_degenerate_fit 400 400 100 100 (by norm_num) (by norm_num) (by norm_num) (by norm_num)
      ⟨JNum.num 5, JNum.num 7, JNum.num 1⟩).2.2.2.1⟩

/-- Algebraic core of anchored zoom: dividing the anchored offset update
by the new scale recovers the original image-space coordinate. -/
theorem anchor_cancel (p x a b : ℚ) (ha : a ≠ 0) (hb : b ≠ 0) :
    (p - (p - (p - x) * (b / a))) / b = (p - x) / a := by
  field_simp
  ring

/-- C5 — confirmed.  For a prior scale > 0 and a wheel delta whose
resulting scale is still ≥ 0.1, the new scale is
previous + deltaY·(-0.001) (so the 0.1 clamp is inactive but the result
still satisfies the ≥ 0.1 bound), the offsets follow
offset' = cursor - (cursor - offset)·(scale'/scale), and the image-space
point under the cursor is unchanged — exactly, since the model computes
in exact rationals. -/
theorem C5_zoom_anchored (mouseX mouseY deltaY : ℚ) (s : ViewQ)
    (hscale : 0 < s.imgScale)
    (hres : 1 / 10 ≤ s.imgScale + deltaY * (-1 / 1000)) :
    (wheelZoom mouseX mouseY deltaY s).imgScale = s.imgScale + deltaY * (-1 / 1000) ∧
    1 / 10 ≤ (wheelZoom mouseX mouseY deltaY s).imgScale ∧
    (wheelZoom mouseX mouseY deltaY s).imgX
      = mouseX - (mouseX - s.imgX) * ((wheelZoom mouseX mouseY deltaY s).imgScale / s.imgScale) ∧
    (wheelZoom mouseX mouseY deltaY s).imgY
      = mouseY - (mouseY - s.imgY) * ((wheelZoom mouseX mouseY deltaY s).imgScale / s.imgScale) ∧
    screenToImage mouseX mouseY (wheelZoom mouseX mouseY deltaY s)
      = screenToImage mouseX mouseY s := by
  have hmax : max ((1 : ℚ) / 10) (s.imgScale + deltaY * (-1 / 1000))
      = s.imgScale + deltaY * (-1 / 1000) := max_eq_right hres
  have hpos : (0 : ℚ) < s.imgScale + deltaY * (-1 / 1000) := lt_of_lt_of_le (by norm_num) hres
  have hs0 : s.imgScale ≠ 0 := hscale.ne'
  have hn0 : s.imgScale + deltaY * (-1 / 1000) ≠ 0 := hpos.ne'
  refine ⟨?_, ?_, ?_, ?_, ?_⟩
  · simp only [wheelZoom, hmax]
  · simp only [wheelZoom, hmax]
    exact hres
  · simp only [wheelZoom, hmax]
  · simp only [wheelZoom, hmax]
  · simp only [wheelZoom, screenToImage, hmax, Prod.mk.injEq]
    exact ⟨anchor_cancel mouseX s.imgX s.imgScale _ hs0 hn0,
      anchor_cancel mouseY s.imgY s.imgScale _ hs0 hn0⟩

/-- In-range getD does not depend on the default. -/
theorem getD_default_irrel {α : Type} (l : List α) (n : ℕ) (d d' : α) (h : n < l.length) :
    l.getD n d = l.getD n d' := by
  rw [List.getD_eq_getElem l d h, List.getD_eq_getElem l d' h]

/-- saveState from any state with -1 ≤ index < length yields a good
state sitting at the top of a history of length index + 2. -/
theorem saveState_spec {α : Type} (s : HistState α)
    (h0 : -1 ≤ s.historyIndex) (h1 : s.historyIndex < (s.history.length : ℤ)) :
    GoodHist (saveState s) ∧
    ((saveState s).history.length : ℤ) = s.historyIndex + 2 ∧
    (saveState s).historyIndex = s.historyIndex + 1 ∧
    (saveState s).surface = s.surface := by
  have htake : (s.history.take (s.historyIndex + 1).toNat).length = (s.historyIndex + 1).toNat := by
    rw [List.length_take]; omega
  have hlen : ((saveState s).history.length : ℤ) = s.historyIndex + 2 := by
    simp only [saveState, List.length_append, List.length_take, List.length_cons,
      List.length_nil]
    omega
  refine ⟨⟨by simp [saveState]; omega, by rw [hlen]; simp only [saveState]; omega, ?_⟩,
    hlen, rfl, rfl⟩
  intro d
  show (s.history.take (s.historyIndex + 1).toNat ++ [s.surface]).getD
      (s.historyIndex + 1).toNat d = s.surface
  rw [List.getD_append_right _ _ _ _ (le_of_eq htake), htake, Nat.sub_self]
  rfl

/-- saveState_spec specialised to a state whose surface was just
replaced by the buffer b being committed. -/
theorem saveStateWith_spec {α : Type} (s : HistState α) (b : α)
    (h0 : -1 ≤ s.historyIndex) (h1 : s.historyIndex < (s.history.length : ℤ)) :
    GoodHist (saveState { s with surface := b }) ∧
    ((saveState { s with surface := b }).history.length : ℤ) = s.historyIndex + 2 ∧
    (saveState { s with surface := b }).historyIndex = s.historyIndex + 1 ∧
    (saveState { s with surface := b }).surface = b := by
  obtain ⟨g, l, i, f⟩ := saveState_spec { s with surface := b } h0 h1
  exact ⟨g, l, i, f⟩

/-- undo keeps the history, moves the index down by one (stopping at 0)
and preserves the invariant. -/
theorem undo_spec {α : Type} (s : HistState α) (h : GoodHist s) :
    GoodHist (undo s) ∧ (undo s).history = s.history ∧
    (undo s).historyIndex = max (s.historyIndex - 1) 0 := by
  obtain ⟨hi0, hilen, hsync⟩ := h
  by_cases hpos : 0 < s.historyIndex
  · have hrange : (s.historyIndex - 1).toNat < s.history.length := by omega
    refine ⟨⟨by simp [undo, restoreState, hpos]; omega, by simp [undo, restoreState, hpos]; omega, ?_⟩,
      by simp [undo, restoreState, hpos], by simp [undo, restoreState, hpos]; omega⟩
    intro d
    simp only [undo, restoreState, if_pos hpos]
    exact getD_default_irrel _ _ _ _ hrange
  · have hid : undo s = s := by simp [undo, hpos]
    rw [hid]
    exact ⟨⟨hi0, hilen, hsync⟩, rfl, by omega⟩

/-- redo keeps the history, moves the index up by one (stopping at
length - 1) and preserves the invariant. -/
theorem redo_spec {α : Type} (s : HistState α) (h : GoodHist s) :
    GoodHist (redo s) ∧ (redo s).history = s.history ∧
    (redo s).historyIndex = min (s.historyIndex + 1) ((s.history.length : ℤ) - 1) := by
  obtain ⟨hi0, hilen, hsync⟩ := h
  by_cases hlt : s.historyIndex < (s.history.length : ℤ) - 1
  · have hrange : (s.historyIndex + 1).toNat < s.history.length := by omega
    refine ⟨⟨by simp [redo, restoreState, hlt]; omega, by simp [redo, restoreState, hlt]; omega, ?_⟩,
      by simp [redo, restoreState, hlt], by simp [redo, restoreState, hlt]; omega⟩
    intro d
    simp only [redo, restoreState, if_pos hlt]
    exact getD_default_irrel _ _ _ _ hrange
  · have hid : redo s = s := by simp [redo, hlt]
    rw [hid]
    exact ⟨⟨hi0, hilen, hsync⟩, rfl, by omega⟩

/-- k-fold undo: history constant, index max(index - k, 0). -/
theorem undo_iter_spec {α : Type} (k : ℕ) (s : HistState α) (h : GoodHist s) :
    GoodHist (undo^[k] s) ∧ (undo^[k] s).history = s.history ∧
    (undo^[k] s).historyIndex = max (s.historyIndex - k) 0 := by
  induction k with
  | zero =>
    refine ⟨h, rfl, ?_⟩
    have := h.1
    simp
    omega
  | succ n ih =>
    obtain ⟨hg, hh, hi⟩ := ih
    obtain ⟨hg', hh', hi'⟩ := undo_spec _ hg
    rw [Function.iterate_succ_apply']
    refine ⟨hg', by rw [hh', hh], ?_⟩
    rw [hi', hi]
    push_cast
    omega

/-- k-fold redo: history constant, index min(index + k, length - 1). -/
theorem redo_iter_spec {α : Type} (k : ℕ) (s : HistState α) (h : GoodHist s) :
    GoodHist (redo^[k] s) ∧ (redo^[k] s).history = s.history ∧
    (redo^[k] s).historyIndex = min (s.historyIndex + k) ((s.history.length : ℤ) - 1) := by
  induction k with
  | zero =>
    refine ⟨h, rfl, ?_⟩
    have := h.2.1
    simp
    omega
  | succ n ih =>
    obtain ⟨hg, hh, hi⟩ := ih
    obtain ⟨hg', hh', hi'⟩ := redo_spec _ hg
    rw [Function.iterate_succ_apply']
    refine ⟨hg', by rw [hh', hh], ?_⟩
    rw [hi', hi, hh]
    push_cast
    omega

/-- redo is a no-op at the top of the history. -/
theorem redo_at_top {α : Type} (t : HistState α)
    (h : t.historyIndex = (t.history.length : ℤ) - 1) : redo t = t := by
  rw [redo, if_neg]
  omega

/-- undo is a no-op at index 0 (and below). -/
theorem undo_at_bottom {α : Type} (t : HistState α) (h : t.historyIndex = 0) : undo t = t := by
  rw [undo, if_neg]
  omega

/-- pushAll from a top state: the index and length each grow by the
number of buffers, the result is at the top, and (when at least one
buffer is pushed) the invariant holds. -/
theorem pushAll_spec {α : Type} (bufs : List α) (s : HistState α)
    (h0 : -1 ≤ s.historyIndex) (htop : s.historyIndex = (s.history.length : ℤ) - 1) :
    (pushAll s bufs).historyIndex = s.historyIndex + bufs.length ∧
    ((pushAll s bufs).history.length : ℤ) = (s.history.length : ℤ) + bufs.length ∧
    (pushAll s bufs).historyIndex = ((pushAll s bufs).history.length : ℤ) - 1 ∧
    (bufs ≠ [] → GoodHist (pushAll s bufs)) := by
  induction bufs generalizing s with
  | nil => exact ⟨by simp [pushAll], by simp [pushAll], by simpa [pushAll] using htop,
      fun hne => absurd rfl hne⟩
  | cons b rest ih =>
    have hstep : pushAll s (b :: rest) = pushAll (saveState { s with surface := b }) rest := rfl
    obtain ⟨tg, tlen, tidx, -⟩ := saveStateWith_spec s b h0 (by omega)
    have ttop : (saveState { s with surface := b }).historyIndex
        = ((saveState { s with surface := b }).history.length : ℤ) - 1 := by
      rw [tlen, tidx]; ring
    obtain ⟨ri, rlen, rtop, rgood⟩ :=
      ih (saveState { s with surface := b }) (by rw [tidx]; omega) ttop
    rw [hstep]
    refine ⟨?_, ?_, rtop, fun _ => ?_⟩
    · rw [ri, tidx]; push_cast [List.length_cons]; ring
    · rw [rlen, tlen]; push_cast [List.length_cons]; omega
    · rcases rest with - | ⟨c, cs⟩
      · simpa [pushAll] using tg
      · exact rgood (by simp)

/-- Every history operation preserves InitOrGood. -/
theorem applyOp_initOrGood {α : Type} (s : HistState α) (op : HistOp α)
    (h : InitOrGood s) : InitOrGood (applyOp s op) := by
  cases op with
  | save b =>
    refine Or.inr ?_
    rcases h with ⟨he, hi⟩ | ⟨hi0, hilen, -⟩
    · exact (saveStateWith_spec s b (by omega) (by simp [he, hi])).1
    · exact (saveStateWith_spec s b (by omega) hilen).1
  | undo =>
    rcases h with ⟨he, hi⟩ | hg
    · exact Or.inl ⟨by simp [applyOp, undo, hi, he], by simp [applyOp, undo, hi]⟩
    · exact Or.inr (undo_spec s hg).1
  | redo =>
    rcases h with ⟨he, hi⟩ | hg
    · exact Or.inl ⟨by simp [applyOp, redo, he, hi], by simp [applyOp, redo, he, hi]⟩
    · exact Or.inr (redo_spec s hg).1

/-- Any operation sequence from the initial history preserves
InitOrGood. -/
theorem applyOps_initOrGood {α : Type} (ops : List (HistOp α)) (s : HistState α)
    (h : InitOrGood s) : InitOrGood (applyOps s ops) := by
  induction ops generalizing s with
  | nil => exact h
  | cons op rest ih => exact ih (applyOp s op) (applyOp_initOrGood s op h)

/-- C4 — confirmed.  History is linear: after the n snapshots of bufs,
k undos followed by k redos (k ≤ n) restore the history, the index and
the exact pixel buffer; a snapshot taken after j undos truncates the
history to index + 2 entries, and a subsequent redo is a no-op; undo at
index 0 and redo at the last index are no-ops; and on every reachable
state with non-empty history, 0 ≤ historyIndex < history.length. -/
theorem C4_history_linear {α : Type} (a b : α) (bufs : List α) (k j : ℕ)
    (hne : bufs ≠ []) (hk : k ≤ bufs.length) :
    ((pushAll (histInit a) bufs).history.length = bufs.length) ∧
    (pushAll (histInit a) bufs).historyIndex = (bufs.length : ℤ) - 1 ∧
    (redo^[k] (undo^[k] (pushAll (histInit a) bufs))).history
      = (pushAll (histInit a) bufs).history ∧
    (redo^[k] (undo^[k] (pushAll (histInit a) bufs))).historyIndex
      = (pushAll (histInit a) bufs).historyIndex ∧
    (redo^[k] (undo^[k] (pushAll (histInit a) bufs))).surface
      = (pushAll (histInit a) bufs).surface ∧
    ((saveState { (undo^[j] (pushAll (histInit a) bufs)) with surface := b }).history.length : ℤ)
      = (undo^[j] (pushAll (histInit a) bufs)).historyIndex + 2 ∧
    redo (saveState { (undo^[j] (pushAll (histInit a) bufs)) with surface := b })
      = saveState { (undo^[j] (pushAll (histInit a) bufs)) with surface := b } ∧
    (∀ t : HistState α, t.historyIndex = 0 → undo t = t) ∧
    (∀ t : HistState α, t.historyIndex = (t.history.length : ℤ) - 1 → redo t = t) ∧
    (∀ ops : List (HistOp α), (applyOps (histInit a) ops).history ≠ [] →
      0 ≤ (applyOps (histInit a) ops).historyIndex ∧
      (applyOps (histInit a) ops).historyIndex
        < ((applyOps (histInit a) ops).history.length : ℤ)) := by
  obtain ⟨pidx, plen, ptop, pgood⟩ :=
    pushAll_spec bufs (histInit a) (by simp [histInit]) (by simp [histInit])
  have hg : GoodHist (pushAll (histInit a) bufs) := pgood hne
  have hlen : ((pushAll (histInit a) bufs).history.length : ℤ) = (bufs.length : ℤ) := by
    rw [plen]; simp [histInit]
  have hidx : (pushAll (histInit a) bufs).historyIndex = (bufs.length : ℤ) - 1 := by
    rw [pidx]; simp [histInit]; ring
  obtain ⟨ug, uh, ui⟩ := undo_iter_spec k _ hg
  obtain ⟨rg, rh, ri⟩ := redo_iter_spec k _ ug
  have hri : (redo^[k] (undo^[k] (pushAll (histInit a) bufs))).historyIndex
      = (pushAll (histInit a) bufs).historyIndex := by
    rw [ri, ui, uh, hlen, hidx]
    have : 0 < bufs.length := List.length_pos.mpr hne
    omega
  refine ⟨by exact_mod_cast hlen, hidx, by rw [rh, uh], hri, ?_, ?_, ?_,
    fun t ht => undo_at_bottom t ht, fun t ht => redo_at_top t ht, ?_⟩
  · have hsurf := rg.2.2 (pushAll (histInit a) bufs).surface
    rw [rh, uh, hri] at hsurf
    rw [← hsurf]
    exact hg.2.2 _
  · obtain ⟨jg, -, -⟩ := undo_iter_spec j _ hg
    have hj0 : (-1 : ℤ) ≤ (undo^[j] (pushAll (histInit a) bufs)).historyIndex := by
      have := jg.1; omega
    exact (saveStateWith_spec _ b hj0 jg.2.1).2.1
  · obtain ⟨jg, -, -⟩ := undo_iter_spec j _ hg
    have hj0 : (-1 : ℤ) ≤ (undo^[j] (pushAll (histInit a) bufs)).historyIndex := by
      have := jg.1; omega
    obtain ⟨-, slen, sidx, -⟩ := saveStateWith_spec _ b hj0 jg.2.1
    exact redo_at_top _ (by rw [sidx, slen]; ring)
  · intro ops hopsne
    rcases applyOps_initOrGood ops (histInit a) (Or.inl ⟨rfl, rfl⟩) with ⟨he, -⟩ | hgood
    · exact absurd he hopsne
    · exact ⟨hgood.1, hgood.2.1⟩

/-- C4 — witness: three snapshots, two undos and two redos over ℕ
buffers. -/
theorem C4_history_linear_witness :
    ([1, 2, 3] : List ℕ) ≠ [] ∧ 2 ≤ ([1, 2, 3] : List ℕ).length ∧
    (redo^[2] (undo^[2] (pushAll (histInit 0) [1, 2, 3]))).surface
      = (pushAll (histInit (0 : ℕ)) [1, 2, 3]).surface :=
  ⟨by decide, by decide,
    (C4_history_linear 0 9 [1, 2, 3] 2 1 (by decide) (by decide)).2.2.2.2.1⟩

/-- C5 — witness: zooming in by one wheel notch (deltaY = -100) from
scale 1 at cursor (3, 4). -/
theorem C5_zoom_anchored_witness :
    (0 : ℚ) < (ViewQ.mk 0 0 1).imgScale ∧
    (1 : ℚ) / 10 ≤ (ViewQ.mk 0 0 1).imgScale + (-100) * (-1 / 1000) ∧
    screenToImage 3 4 (wheelZoom 3 4 (-100) (ViewQ.mk 0 0 1)) = screenToImage 3 4 (ViewQ.mk 0 0 1) :=
  ⟨by norm_num, by norm_num,
    (C5_zoom_anchored 3 4 (-100) (ViewQ.mk 0 0 1) (by norm_num) (by norm_num)).2.2.2.2⟩

/-- C6 — confirmed.  With softness > 0 (and any target alpha), the
soft-brush renderer makes steps = round(5 + softness/5) passes (at least
5); the pass widths start at lineWidth·(1 − softness/150), end at
lineWidth·(1 + softness/150) and advance by the constant increment; the
per-pass opacity is the same on every pass, and compounding it over the
steps passes by source-over yields exactly the capped target coverage
min(alpha/100, 0.95). -/
theorem C6_soft_brush (lineWidth alpha softness : ℝ) (hs : 0 < softness) (_ha : 0 < alpha) :
    softSteps softness = round (5 + softness / 5) ∧
    5 ≤ softSteps softness ∧
    (softPassWidths lineWidth softness).length = (softSteps softness).toNat ∧
    softPassLineWidth lineWidth softness 0 = lineWidth * (1 - softness / 150) ∧
    softPassLineWidth lineWidth softness ((softSteps softness).toNat - 1)
      = lineWidth * (1 + softness / 150) ∧
    (∀ i : ℕ, softPassLineWidth lineWidth softness (i + 1)
        - softPassLineWidth lineWidth softness i
      = softLineWidthIncrement lineWidth softness) ∧
    compositedCoverage (softPassAlpha alpha softness) (softSteps softness).toNat
      = min (alpha / 100) 0.95 := by
  have hsteps5 : (5 : ℤ) ≤ softSteps softness := by
    rw [softSteps, round_eq]
    refine Int.le_floor.mpr ?_
    push_cast
    have : 0 < softness / 5 := by positivity
    linarith
  have hz : (0 : ℤ) ≤ softSteps softness := by omega
  have hnat : (((softSteps softness).toNat : ℕ) : ℝ) = ((softSteps softness : ℤ) : ℝ) := by
    exact_mod_cast Int.toNat_of_nonneg hz
  have h5R : (5 : ℝ) ≤ ((softSteps softness : ℤ) : ℝ) := by exact_mod_cast hsteps5
  have hne1 : ((softSteps softness : ℤ) : ℝ) - 1 ≠ 0 := by
    intro hcontra
    have : ((softSteps softness : ℤ) : ℝ) = 1 := by linarith
    linarith
  have hn5 : 5 ≤ (softSteps softness).toNat := by omega
  refine ⟨rfl, hsteps5, by simp [softPassWidths], ?_, ?_, ?_, ?_⟩
  · simp [softPassLineWidth, softMinLineWidth]
  · have hcast : (((softSteps softness).toNat - 1 : ℕ) : ℝ) = ((softSteps softness : ℤ) : ℝ) - 1 := by
      rw [Nat.cast_sub (by omega : 1 ≤ (softSteps softness).toNat), hnat, Nat.cast_one]
    rw [softPassLineWidth, softLineWidthIncrement, hcast, div_mul_cancel₀ _ hne1,
      softMinLineWidth, softMaxLineWidth]
    ring
  · intro i
    rw [softPassLineWidth, softPassLineWidth]
    push_cast
    ring
  · have hx0 : (0 : ℝ) ≤ 1 - min (alpha / 100) 0.95 := by
      have : min (alpha / 100) 0.95 ≤ 0.95 := min_le_right _ _
      linarith [this]
    have hnne : ((softSteps softness : ℤ) : ℝ) ≠ 0 := by linarith
    rw [compositedCoverage, softPassAlpha]
    rw [show (1 : ℝ) - (1 - (1 - min (alpha / 100) 0.95) ^ ((1 : ℝ) / ((softSteps softness : ℤ) : ℝ)))
        = (1 - min (alpha / 100) 0.95) ^ ((1 : ℝ) / ((softSteps softness : ℤ) : ℝ)) by ring]
    rw [← Real.rpow_natCast ((1 - min (alpha / 100) 0.95) ^ ((1 : ℝ) / ((softSteps softness : ℤ) : ℝ)))
      (softSteps softness).toNat]
    rw [← Real.rpow_mul hx0, hnat, one_div, inv_mul_cancel₀ hnne, Real.rpow_one]
    ring

/-- C6 — witness: softness 30, alpha 60, lineWidth 10 — 11 passes whose
compound coverage is exactly 0.6. -/
theorem C6_soft_brush_witness :
    (0 : ℝ) < 30 ∧ (0 : ℝ) < 60 ∧
    compositedCoverage (softPassAlpha 60 30) (softSteps 30).toNat
      = min ((60 : ℝ) / 100) 0.95 :=
  ⟨by norm_num, by norm_num,
    (C6_soft_brush 10 60 30 (by norm_num) (by norm_num)).2.2.2.2.2.2⟩

/-- Distance between two points of the lerp family
t ↦ (lx + dx·t, ly + dy·t). -/
theorem pointDist_lerp (lx ly dx dy t u : ℝ) :
    pointDist (lx + dx * t, ly + dy * t) (lx + dx * u, ly + dy * u)
      = |u - t| * Real.sqrt (dx * dx + dy * dy) := by
  have h : (lx + dx * u - (lx + dx * t)) * (lx + dx * u - (lx + dx * t))
      + (ly + dy * u - (ly + dy * t)) * (ly + dy * u - (ly + dy * t))
      = ((u - t) ^ 2) * (dx * dx + dy * dy) := by ring
  show Real.sqrt ((lx + dx * u - (lx + dx * t)) * (lx + dx * u - (lx + dx * t))
      + (ly + dy * u - (ly + dy * t)) * (ly + dy * u - (ly + dy * t)))
    = |u - t| * Real.sqrt (dx * dx + dy * dy)
  rw [h, Real.sqrt_mul (sq_nonneg (u - t)), Real.sqrt_sq_eq_abs]

/-- Distance from a lerp point at parameter t to the segment's
endpoint. -/
theorem pointDist_lerp_end (lx ly cx cy t : ℝ) :
    pointDist (lx + (cx - lx) * t, ly + (cy - ly) * t) (cx, cy)
      = |1 - t| * Real.sqrt ((cx - lx) * (cx - lx) + (cy - ly) * (cy - ly)) := by
  have h := pointDist_lerp lx ly (cx - lx) (cy - ly) t 1
  have hc : ((lx + (cx - lx) * 1, ly + (cy - ly) * 1) : ℝ × ℝ) = (cx, cy) := by simp
  rw [hc] at h
  exact h

/-- C7 — confirmed.  One handleErase call with positive dab diameter:
below a quarter diameter of travel a single dab is stamped at the new
point; otherwise exactly ceil(distance/(diameter/4)) dabs are stamped,
each linearly interpolated along the segment at parameter i/steps, the
distance between consecutive dab centers is at most a quarter diameter,
and so is the distance from the last stamped center to the new
last-dab-center. -/
theorem C7_erase_interpolation (last cur : ℝ × ℝ) (eraserSize : ℝ) (hD : 0 < eraserSize) :
    (pointDist last cur < eraserSize / 4 →
      handleEraseDabs last cur eraserSize = [cur]) ∧
    (eraserSize / 4 ≤ pointDist last cur →
      (handleEraseDabs last cur eraserSize).length
        = (Int.ceil (pointDist last cur / (eraserSize / 4))).toNat ∧
      (∀ i : ℕ, i < (handleEraseDabs last cur eraserSize).length →
        (handleEraseDabs last cur eraserSize).get? i
          = some (last.1 + (cur.1 - last.1)
                * ((i : ℝ) / (((Int.ceil (pointDist last cur / (eraserSize / 4))).toNat : ℕ) : ℝ)),
              last.2 + (cur.2 - last.2)
                * ((i : ℝ) / (((Int.ceil (pointDist last cur / (eraserSize / 4))).toNat : ℕ) : ℝ)))) ∧
      (∀ i : ℕ, ∀ p q : ℝ × ℝ,
        (handleEraseDabs last cur eraserSize).get? i = some p →
        (handleEraseDabs last cur eraserSize).get? (i + 1) = some q →
        pointDist p q ≤ eraserSize / 4) ∧
      (∀ p : ℝ × ℝ, (handleEraseDabs last cur eraserSize).getLast? = some p →
        pointDist p cur ≤ eraserSize / 4)) := by
  obtain ⟨lx, ly⟩ := last
  obtain ⟨cx, cy⟩ := cur
  have hD4 : (0 : ℝ) < eraserSize / 4 := by positivity
  constructor
  · intro hlt
    have hlt' : Real.sqrt ((cx - lx) * (cx - lx) + (cy - ly) * (cy - ly)) < eraserSize / 4 := hlt
    simp only [handleEraseDabs]
    rw [if_pos hlt']
  · intro hge
    have hge' : ¬ (Real.sqrt ((cx - lx) * (cx - lx) + (cy - ly) * (cy - ly)) < eraserSize / 4) :=
      not_lt.mpr hge
    have hL0 : 0 < pointDist (lx, ly) (cx, cy) := lt_of_lt_of_le hD4 hge
    have hq1 : (1 : ℝ) ≤ pointDist (lx, ly) (cx, cy) / (eraserSize / 4) :=
      (one_le_div hD4).mpr hge
    have hz1 : (1 : ℤ) ≤ Int.ceil (pointDist (lx, ly) (cx, cy) / (eraserSize / 4)) := by
      exact_mod_cast le_trans hq1 (Int.le_ceil _)
    have hnpos : 0 < (Int.ceil (pointDist (lx, ly) (cx, cy) / (eraserSize / 4))).toNat := by
      omega
    have hncast : (((Int.ceil (pointDist (lx, ly) (cx, cy) / (eraserSize / 4))).toNat : ℕ) : ℝ)
        = ((Int.ceil (pointDist (lx, ly) (cx, cy) / (eraserSize / 4)) : ℤ) : ℝ) := by
      exact_mod_cast Int.toNat_of_nonneg (by omega)
    have hnR : (0 : ℝ)
        < (((Int.ceil (pointDist (lx, ly) (cx, cy) / (eraserSize / 4))).toNat : ℕ) : ℝ) := by
      exact_mod_cast hnpos
    have hceil_ge : pointDist (lx, ly) (cx, cy) / (eraserSize / 4)
        ≤ (((Int.ceil (pointDist (lx, ly) (cx, cy) / (eraserSize / 4))).toNat : ℕ) : ℝ) := by
      rw [hncast]; exact Int.le_ceil _
    have hgap : pointDist (lx, ly) (cx, cy)
          / (((Int.ceil (pointDist (lx, ly) (cx, cy) / (eraserSize / 4))).toNat : ℕ) : ℝ)
        ≤ eraserSize / 4 := by
      rw [div_le_iff hnR]
      have := (div_le_iff hD4).mp hceil_ge
      linarith [this]
    have hunfold : handleEraseDabs (lx, ly) (cx, cy) eraserSize
        = (List.range (Int.ceil (pointDist (lx, ly) (cx, cy) / (eraserSize / 4))).toNat).map
            (fun i : ℕ => (lx + (cx - lx)
                * ((i : ℝ) / (((Int.ceil (pointDist (lx, ly) (cx, cy) / (eraserSize / 4))).toNat : ℕ) : ℝ)),
              ly + (cy - ly)
                * ((i : ℝ) / (((Int.ceil (pointDist (lx, ly) (cx, cy) / (eraserSize / 4))).toNat : ℕ) : ℝ)))) := by
      simp only [handleEraseDabs]
      rw [if_neg hge']
      rfl
    refine ⟨by rw [hunfold]; simp, ?_, ?_, ?_⟩
    · intro i hi
      rw [hunfold] at hi ⊢
      simp only [List.length_map, List.length_range] at hi
      rw [List.get?_map, List.get?_range hi]
      rfl
    · intro i p q hp hq
      rw [hunfold] at hp hq
      rw [List.get?_map] at hp hq
      have hq' := hq
      rcases h1 : (List.range (Int.ceil (pointDist (lx, ly) (cx, cy) / (eraserSize / 4))).toNat).get? i with - | v
      · rw [h1] at hp; exact absurd hp (by simp)
      rcases h2 : (List.range (Int.ceil (pointDist (lx, ly) (cx, cy) / (eraserSize / 4))).toNat).get? (i + 1) with - | w
      · rw [h2] at hq; exact absurd hq (by simp)
      have hilt : i + 1 < (Int.ceil (pointDist (lx, ly) (cx, cy) / (eraserSize / 4))).toNat := by
        have := List.get?_eq_some.mp h2
        simpa using this.1
      have hv : v = i := by
        have hr := List.get?_range (lt_trans (Nat.lt_succ_self i) hilt)
        exact (Option.some_inj.mp (hr.symm.trans h1)).symm
      have hw : w = i + 1 := by
        have hr := List.get?_range hilt
        exact (Option.some_inj.mp (hr.symm.trans h2)).symm
      rw [h1, hv] at hp
      rw [h2, hw] at hq
      have hp' : p = (lx + (cx - lx)
            * ((i : ℝ) / (((Int.ceil (pointDist (lx, ly) (cx, cy) / (eraserSize / 4))).toNat : ℕ) : ℝ)),
          ly + (cy - ly)
            * ((i : ℝ) / (((Int.ceil (pointDist (lx, ly) (cx, cy) / (eraserSize / 4))).toNat : ℕ) : ℝ))) := by
        simpa using hp.symm
      have hq'' : q = (lx + (cx - lx)
            * (((i + 1 : ℕ) : ℝ) / (((Int.ceil (pointDist (lx, ly) (cx, cy) / (eraserSize / 4))).toNat : ℕ) : ℝ)),
          ly + (cy - ly)
            * (((i + 1 : ℕ) : ℝ) / (((Int.ceil (pointDist (lx, ly) (cx, cy) / (eraserSize / 4))).toNat : ℕ) : ℝ))) := by
        simpa using hq.symm
      rw [hp', hq'', pointDist_lerp]
      have habs : |((i + 1 : ℕ) : ℝ) / (((Int.ceil (pointDist (lx, ly) (cx, cy) / (eraserSize / 4))).toNat : ℕ) : ℝ)
            - (i : ℝ) / (((Int.ceil (pointDist (lx, ly) (cx, cy) / (eraserSize / 4))).toNat : ℕ) : ℝ)|
          = 1 / (((Int.ceil (pointDist (lx, ly) (cx, cy) / (eraserSize / 4))).toNat : ℕ) : ℝ) := by
        rw [div_sub_div_same]
        push_cast
        rw [show ((i : ℝ) + 1 - i) = 1 by ring]
        rw [abs_of_pos (by positivity)]
      rw [habs, one_div, inv_mul_eq_div]
      exact hgap
    · intro p hp
      obtain ⟨m, hm⟩ := Nat.exists_eq_succ_of_ne_zero (Nat.pos_iff_ne_zero.mp hnpos)
      rw [hunfold, hm, List.range_succ, List.map_append, List.map_cons, List.map_nil,
        List.getLast?_concat] at hp
      rw [hm] at hgap
      push_cast at hgap
      have hp' : p = (lx + (cx - lx) * ((m : ℝ) / ((m : ℝ) + 1)),
          ly + (cy - ly) * ((m : ℝ) / ((m : ℝ) + 1))) := by
        simpa using hp.symm
      rw [hp', pointDist_lerp_end]
      have habs : |1 - (m : ℝ) / ((m : ℝ) + 1)| = 1 / ((m : ℝ) + 1) := by
        have hm1 : (0 : ℝ) < (m : ℝ) + 1 := by positivity
        have hsub : (1 : ℝ) - (m : ℝ) / ((m : ℝ) + 1) = 1 / ((m : ℝ) + 1) := by
          field_simp
        rw [hsub, abs_of_pos (by positivity)]
      rw [habs, one_div, inv_mul_eq_div]
      exact hgap

/-- C7 — witness: erasing from (0,0) to (3,4) (distance 5) with dab
diameter 8 (quarter diameter 2) stamps ceil(5/2) = 3 dabs. -/
theorem C7_erase_interpolation_witness :
    (0 : ℝ) < 8 ∧ (8 : ℝ) / 4 ≤ pointDist (0, 0) (3, 4) ∧
    (handleEraseDabs (0, 0) (3, 4) 8).length
      = (Int.ceil (pointDist (0, 0) (3, 4) / (8 / 4))).toNat := by
  have h5 : pointDist ((0 : ℝ), (0 : ℝ)) ((3 : ℝ), (4 : ℝ)) = 5 := by
    show Real.sqrt (((3 : ℝ) - 0) * (3 - 0) + (4 - 0) * (4 - 0)) = 5
    rw [show ((3 : ℝ) - 0) * (3 - 0) + (4 - 0) * (4 - 0) = 5 ^ 2 by norm_num,
      Real.sqrt_sq (by norm_num)]
  have hL : (8 : ℝ) / 4 ≤ pointDist ((0 : ℝ), (0 : ℝ)) ((3 : ℝ), (4 : ℝ)) := by
    rw [h5]; norm_num
  exact ⟨by norm_num, hL, ((C7_erase_interpolation (0, 0) (3, 4) 8 (by norm_num)).2 hL).1⟩

/-- C8 — confirmed.  setValue with the guard clear writes exactly one
external event and leaves targetValue = previousValue, so a subsequent
observer firing reports nothing (no echo); setValue with the guard set
returns the state unchanged and writes nothing (dropped, not queued);
in every case at most one external write is dispatched per call. -/
theorem C8_no_echo (s : BindState) (v : String) :
    (¬ s.syncLock →
      observerFire (setValue s v).1 = ((setValue s v).1, ObserverResult.ok none) ∧
      (setValue s v).2 = [v]) ∧
    (s.syncLock → setValue s v = (s, [])) ∧
    (setValue s v).2.length ≤ 1 := by
  cases hs : s.syncLock <;> simp [setValue, observerFire, hs]

/-- C8 — witness: a write from an unlocked state echoes nothing, and a
write attempted from a locked state is dropped. -/
theorem C8_no_echo_witness :
    ¬ (BindState.mk "a" "b" false).syncLock ∧
    observerFire (setValue (BindState.mk "a" "b" false) "v").1
      = ((setValue (BindState.mk "a" "b" false) "v").1, ObserverResult.ok none) ∧
    setValue (BindState.mk "a" "b" true) "v" = (BindState.mk "a" "b" true, []) :=
  ⟨by decide,
    ((C8_no_echo (BindState.mk "a" "b" false) "v").1 (by decide)).1,
    (C8_no_echo (BindState.mk "a" "b" true) "v").2.1 (by decide)⟩

/-- C3 — the code at the claim's failing input.  After listen registers
a load callback and the host genuinely edits the bound field to a new
value, the observer firing throws a ReferenceError (the source's
observer body reads the unbound identifier `callback`, and listen has an
empty body that discards the registered callback); more generally no
observer firing ever invokes a callback on any value, so the load
pipeline is never run. -/
theorem C3_listen_callback_never_invoked :
    (observerFire (externalEdit (listen (BindState.mk "" "" false) fun _ => ())
        "data:image/png;base64,NEW")).2 = ObserverResult.threwReferenceError ∧
    ∀ (s : BindState) (v : String), (observerFire s).2 ≠ ObserverResult.ok (some v) := by
  refine ⟨by decide, ?_⟩
  intro s v
  unfold observerFire
  split
  · simp
  · split <;> simp

/-- C10 — confirmed.  uploadBase64 returns before touching anything when
gradio_config is absent or its version does not start with '4': the
image, its dimensions, the canvas, the view, the history and both bound
fields are all unchanged, for every payload. -/
theorem C10_upload_guard (decode : String → Option (ℚ × ℚ)) (encodeBg : String → String)
    (encodeFg : Surface → String) (clientW clientH : ℚ) (gradioConfig : Option GradioConfig)
    (base64Data : String) (s : CanvasState)
    (hguard : gradioConfig = none ∨
      ∃ cfg, gradioConfig = some cfg ∧ ¬ jsStartsWith cfg.version "4") :
    uploadBase64 decode encodeBg encodeFg clientW clientH gradioConfig base64Data s = s := by
  rcases hguard with hnone | ⟨cfg, hcfg, hver⟩
  · subst hnone; rfl
  · subst hcfg; simp [uploadBase64, hver]

/-- C10 — witness: a Gradio 3 config with a non-empty payload leaves a
concrete state untouched. -/
theorem C10_upload_guard_witness :
    ¬ jsStartsWith (GradioConfig.mk "3.41.2").version "4" ∧
    uploadBase64 (fun _ => none) id (fun _ => "") 400 300 (some (GradioConfig.mk "3.41.2"))
      "data:image/png;base64,AAAA"
      (CanvasState.mk (some "old") 4 5 4 5 ⟨JNum.num 0, JNum.num 0, JNum.num 1⟩
        (HistState.mk [Surface.blank 4 5] 0 (Surface.blank 4 5))
        (BindState.mk "" "" false) (BindState.mk "" "" false))
      = CanvasState.mk (some "old") 4 5 4 5 ⟨JNum.num 0, JNum.num 0, JNum.num 1⟩
        (HistState.mk [Surface.blank 4 5] 0 (Surface.blank 4 5))
        (BindState.mk "" "" false) (BindState.mk "" "" false) :=
  ⟨by decide,
    C10_upload_guard (fun _ => none) id (fun _ => "") 400 300 (some (GradioConfig.mk "3.41.2"))
      "data:image/png;base64,AAAA"
      (CanvasState.mk (some "old") 4 5 4 5 ⟨JNum.num 0, JNum.num 0, JNum.num 1⟩
        (HistState.mk [Surface.blank 4 5] 0 (Surface.blank 4 5))
        (BindState.mk "" "" false) (BindState.mk "" "" false))
      (Or.inr ⟨GradioConfig.mk "3.41.2", rfl, by decide⟩)⟩

end ForgeSpec
